import Mathlib

/-!
Verification of the hierarchy compiler of the master-compass repository
(`build/generateDataModels.js`), against its natural-language specification.

The compiler scans a data directory, recursively converts every directory
into a `Node`, merges optional per-directory `_settings.js` metadata, and
emits one serialized JavaScript module per view plus a combined index.

Modelling conventions of this shallow embedding:

* A directory tree is an `FsTree` value.  A directory carries the outcome of
  its optional `_settings.js` source: `none` when no settings file exists,
  `some (.ok s)` when the module loads and its default export denotes the
  `Settings` value `s`, and `some (.error ())` when loading or parsing the
  module throws (the `catch` branch of `buildFromDirectory`).
* JavaScript objects with optional keys become structures or inductives with
  `Option` fields; a key is present exactly when the field is `some`.
* JavaScript truthiness on strings (`s || d`, `if (s) ...`) is modelled
  explicitly: the empty string and a missing value are falsy (`strOr`,
  `truthyStr`); on numbers `0` is falsy (`natOr`).
* `Array.prototype.sort` is a stable sort whose output is determined by the
  comparator, so it is modelled by `List.insertionSort` (stable).  The
  default string comparison of `sort()` is code-unit lexicographic and is
  modelled by `lexLe` on the character data.  `localeCompare` is
  locale-dependent; it is modelled as the standard case-aware collation:
  primary comparison on the lowercased strings, lowercase before uppercase
  on ties (`localeLe`).
* `Date.now()` only feeds the cache-busting query of the settings import
  and never influences the loaded value; it is modelled as a `time : Nat`
  argument threaded through the compile and ignored by `loadSettings`.
* Console warnings become `Bool`-valued observation functions.
-/

namespace MasterCompass

/-- Code-point lexicographic `<=` on character lists.  Models the default
comparison used by JavaScript `Array.prototype.sort()` on strings. -/
def lexLe : List Char → List Char → Bool
  | [], _ => true
  | _ :: _, [] => false
  | c :: cs, d :: ds =>
    if c.toNat = d.toNat then lexLe cs ds else decide (c.toNat < d.toNat)

/-- Character-wise ASCII lowercasing of a string (model of lowercasing as
used by locale collation). -/
def lowerStr (s : String) : String := String.mk (s.data.map Char.toLower)

/-- Model of the default-locale `a.localeCompare(b) <= 0`: case-insensitive
primary comparison, with the tie between strings equal up to case broken by
putting lowercase first (reversed code-point order). -/
def localeLe (a b : String) : Bool :=
  if lowerStr a = lowerStr b then lexLe b.data a.data
  else lexLe (lowerStr a).data (lowerStr b).data

/-- Propositional form of `lexLe` on whole strings. -/
def NameLe (a b : String) : Prop := lexLe a.data b.data = true

instance : DecidableRel NameLe := fun _ _ => inferInstanceAs (Decidable (_ = true))

/-- Propositional form of `localeLe`. -/
def LocaleLe (a b : String) : Prop := localeLe a b = true

instance : DecidableRel LocaleLe := fun _ _ => inferInstanceAs (Decidable (_ = true))

/- Default configuration values (`DEFAULTS` in `generateDataModels.js`). -/
namespace DEFAULTS

def LEAF_SIZE : Nat := 1000

def NODE_COLOR : String := "#90CAF9"

end DEFAULTS

/-- The recognized keys of a `_settings.js` default export.  `contactEmail`
is listed in `docs/SETTINGS_REFERENCE.md` as an available field, so a
metadata document may supply it; `contact` is the key the generator reads. -/
structure Settings where
  name : Option String := none
  description : Option String := none
  nodeColor : Option String := none
  owner : Option String := none
  contact : Option String := none
  contactEmail : Option String := none
  size : Option Nat := none
deriving DecidableEq

/-- A filesystem entry: a plain file, or a directory with its optional
settings-load outcome and its entries. -/
inductive FsTree where
  | file (name : String)
  | dir (name : String) (settings : Option (Except Unit Settings)) (entries : List FsTree)

/-- A compiled node.  Field order mirrors the key insertion order of the
generator: `name`, `description`, then optional `nodeColor`, `owner`,
`contact`, then `size` (leaf) or `children` (branch).  The generator never
writes a `contactEmail` key, so `Node` has no such field. -/
inductive Node where
  | mk (name description : String) (nodeColor owner contact : Option String)
       (size : Option Nat) (children : Option (List Node))

def Node.name : Node → String
  | .mk n _ _ _ _ _ _ => n

def Node.description : Node → String
  | .mk _ d _ _ _ _ _ => d

def Node.nodeColor : Node → Option String
  | .mk _ _ c _ _ _ _ => c

def Node.owner : Node → Option String
  | .mk _ _ _ o _ _ _ => o

def Node.contact : Node → Option String
  | .mk _ _ _ _ c _ _ => c

def Node.size : Node → Option Nat
  | .mk _ _ _ _ _ s _ => s

def Node.children : Node → Option (List Node)
  | .mk _ _ _ _ _ _ ch => ch

def FsTree.name : FsTree → String
  | .file n => n
  | .dir n _ _ => n

def FsTree.isDir : FsTree → Bool
  | .file _ => false
  | .dir _ _ _ => true

/-- Whether a name begins with `.` (hidden entry). -/
def startsWithDot (s : String) : Bool :=
  match s.data with
  | [] => false
  | c :: _ => c = '.'

/-- The subdirectory filter of `buildFromDirectory`: directories only,
excluding hidden names and `node_modules`. -/
def isQualifyingSubdir (t : FsTree) : Bool :=
  t.isDir && !startsWithDot t.name && t.name != "node_modules"

/-- Order on entries induced by the default sort of their names. -/
def TreeLe (a b : FsTree) : Prop := NameLe a.name b.name

instance : DecidableRel TreeLe := fun _ _ => inferInstanceAs (Decidable (NameLe _ _))

/-- Order on (entry, compiled node) pairs by entry name. -/
def PairLe (a b : FsTree × Node) : Prop := NameLe a.1.name b.1.name

instance : DecidableRel PairLe := fun _ _ => inferInstanceAs (Decidable (NameLe _ _))

/-- Order on compiled children: `(a, b) => a.name.localeCompare(b.name)`. -/
def ChildLe (a b : Node) : Prop := LocaleLe a.name b.name

instance : DecidableRel ChildLe := fun _ _ => inferInstanceAs (Decidable (LocaleLe _ _))

/-- Sort key of a pair as seen by the subdirectory pipeline: the entry name,
its qualification flag, and the compiled node. -/
def pairKey (p : FsTree × Node) : (String × Bool) × Node :=
  ((p.1.name, isQualifyingSubdir p.1), p.2)

/-- Order on pair keys, comparing the name component. -/
def KeyLe (a b : (String × Bool) × Node) : Prop := NameLe a.1.1 b.1.1

instance : DecidableRel KeyLe := fun _ _ => inferInstanceAs (Decidable (NameLe _ _))

/-- JavaScript `x || d` for an optional string (empty string is falsy). -/
def strOr (o : Option String) (d : String) : String :=
  match o with
  | some s => if s = "" then d else s
  | none => d

/-- JavaScript `if (x) node.k = x` for an optional string field. -/
def truthyStr (o : Option String) : Option String :=
  match o with
  | some s => if s = "" then none else some s
  | none => none

/-- JavaScript `x || d` for an optional number (`0` is falsy). -/
def natOr (o : Option Nat) (d : Nat) : Nat :=
  match o with
  | some n => if n = 0 then d else n
  | none => d

/-- Effective settings of a directory: the loaded value when the settings
module loads, and the empty object both when no settings file exists and
when loading throws.  The `time` argument is the `Date.now()` cache-busting
value, which never influences the loaded value. -/
def loadSettings (_time : Nat) (src : Option (Except Unit Settings)) : Settings :=
  match src with
  | some (.ok s) => s
  | _ => {}

/-- Whether `buildFromDirectory` logs the settings-load warning for this
settings source (the `console.warn` in its `catch` branch). -/
def settingsLoadWarns (src : Option (Except Unit Settings)) : Bool :=
  match src with
  | some (.error _) => true
  | _ => false

/-- Word characters of the JavaScript regexp `\w`: ASCII alphanumerics and
underscore. -/
def isWordChar (c : Char) : Bool := c.isAlphanum || c = '_'

/-- Model of `.replace(/\b\w/g, c => c.toUpperCase())`: uppercase every word
character not preceded by a word character.  The flag records whether the
previous character was a word character. -/
def capWords : List Char → Bool → List Char
  | [], _ => []
  | c :: cs, prevWord =>
    (if isWordChar c && !prevWord then c.toUpper else c) :: capWords cs (isWordChar c)

/-- `formatNodeName` of `generateDataModels.js`: replace every hyphen by a
space, then uppercase the first letter of every word. -/
def formatNodeName (s : String) : String :=
  String.mk (capWords (s.data.map fun c => if c = '-' then ' ' else c) false)

mutual
/-- `buildFromDirectory` of `generateDataModels.js`.  Loads the directory
settings, resolves `name` and `description` with their fallbacks, copies
`nodeColor`, `owner` and `contact` when truthy, then either sets the default
or metadata `size` (leaf: no qualifying subdirectory) or recursively builds
and `localeCompare`-sorts the children (branch).  Subdirectories are
enumerated in sorted name order, as entry/node pairs. -/
def buildFromDirectory (time : Nat) : FsTree → Node
  | .file n => .mk n "" none none none none none
  | .dir nodeName src entries =>
    let settings := loadSettings time src
    let subs := ((buildFromDirectoryList time entries).filter
        (fun p => isQualifyingSubdir p.1)).insertionSort PairLe
    let nm := strOr settings.name (formatNodeName nodeName)
    let descr := strOr settings.description (formatNodeName nodeName ++ " segment")
    if subs.isEmpty then
      .mk nm descr (truthyStr settings.nodeColor) (truthyStr settings.owner)
        (truthyStr settings.contact) (some (natOr settings.size DEFAULTS.LEAF_SIZE)) none
    else
      .mk nm descr (truthyStr settings.nodeColor) (truthyStr settings.owner)
        (truthyStr settings.contact) none
        (some ((subs.map Prod.snd).insertionSort ChildLe))

/-- Pairs every entry of a directory with its compiled node. -/
def buildFromDirectoryList (time : Nat) : List FsTree → List (FsTree × Node)
  | [] => []
  | e :: es => (e, buildFromDirectory time e) :: buildFromDirectoryList time es
end

/-- The qualifying subdirectories of an entry list, in sorted name order
(the `subdirs` value of `buildFromDirectory`). -/
def qualifyingSubdirs (entries : List FsTree) : List FsTree :=
  (entries.filter isQualifyingSubdir).insertionSort TreeLe

/-- `getViewDirectories`: `none` models a nonexistent data root (the
`fs.existsSync` guard), `some entries` its contents.  Immediate
subdirectories that are not hidden, sorted ascending. -/
def getViewDirectories (root : Option (List FsTree)) : List String :=
  match root with
  | none => []
  | some entries =>
    ((entries.filter fun e => e.isDir && !startsWithDot e.name).map FsTree.name).insertionSort NameLe

/-- Whether `getViewDirectories` logs the missing-data-root warning. -/
def dataRootWarns (root : Option (List FsTree)) : Bool := root.isNone

mutual
/-- `allNodes p nd` holds when `p` holds of `nd` and of every node of every
subtree below it. -/
def allNodes (p : Node → Bool) : Node → Bool
  | .mk n d c o ct s ch => p (.mk n d c o ct s ch) && allNodesOpt p ch

def allNodesOpt (p : Node → Bool) : Option (List Node) → Bool
  | none => true
  | some cs => allNodesList p cs

def allNodesList (p : Node → Bool) : List Node → Bool
  | [] => true
  | c :: cs => allNodes p c && allNodesList p cs
end

/-- Adjacent sortedness of a child list under the `localeCompare` order on
resolved display names. -/
def sortedAdjByName : List Node → Bool
  | [] => true
  | [_] => true
  | a :: b :: t => localeLe a.name b.name && sortedAdjByName (b :: t)

/-- Leaf/branch exclusivity at one node: exactly one of `size` and
`children` is present, and `children`, when present, is non-empty. -/
def leafBranchOk (nd : Node) : Bool :=
  match nd with
  | .mk _ _ _ _ _ (some _) none => true
  | .mk _ _ _ _ _ none (some cs) => !cs.isEmpty
  | _ => false

/-- The children of a node, when present, are sorted by resolved name. -/
def childrenSortedOk (nd : Node) : Bool :=
  match nd with
  | .mk _ _ _ _ _ _ none => true
  | .mk _ _ _ _ _ _ (some cs) => sortedAdjByName cs

/-- A node never carries `size` equal to `0`. -/
def sizeNonzeroOk (nd : Node) : Bool := nd.size != some 0

mutual
/-- Two directory trees of the same shape: equal entry names, equal
effective settings, and shape-equal entries.  Settings sources that load to
the same effective value (for example a throwing source and an absent one)
are interchangeable. -/
inductive ShapeEq : FsTree → FsTree → Prop where
  | file (n : String) : ShapeEq (.file n) (.file n)
  | dir (n : String) (s₁ s₂ : Option (Except Unit Settings)) (e₁ e₂ : List FsTree) :
      loadSettings 0 s₁ = loadSettings 0 s₂ → ShapeEqs e₁ e₂ →
      ShapeEq (.dir n s₁ e₁) (.dir n s₂ e₂)

inductive ShapeEqs : List FsTree → List FsTree → Prop where
  | nil : ShapeEqs [] []
  | cons {a b : FsTree} {l₁ l₂ : List FsTree} :
      ShapeEq a b → ShapeEqs l₁ l₂ → ShapeEqs (a :: l₁) (b :: l₂)
end

/-- The two-level scenario input of the spec: view directory `ViewA` with
exactly two leaf subdirectories, `Alpha` (no metadata) and `Beta` (metadata
supplying only the description `b`). -/
def viewAScenario : FsTree :=
  .dir "ViewA" none
    [.dir "Alpha" none [],
     .dir "Beta" (some (.ok { description := some "b" })) []]

/-- One hexadecimal digit, lowercase. -/
def hexDigit (n : Nat) : Char :=
  if n < 10 then Char.ofNat (48 + n) else Char.ofNat (87 + n)

/-- Four lowercase hexadecimal digits. -/
def hex4 (n : Nat) : String :=
  String.mk [hexDigit (n / 4096 % 16), hexDigit (n / 256 % 16),
             hexDigit (n / 16 % 16), hexDigit (n % 16)]

/-- JSON escaping of one character as performed by `JSON.stringify`. -/
def escapeJsonChar (c : Char) : List Char :=
  if c = '"' then ['\\', '"']
  else if c = '\\' then ['\\', '\\']
  else if c = '\n' then ['\\', 'n']
  else if c = '\r' then ['\\', 'r']
  else if c = '\t' then ['\\', 't']
  else if c = '\x08' then ['\\', 'b']
  else if c = '\x0c' then ['\\', 'f']
  else if c.toNat < 32 then '\\' :: 'u' :: (hex4 c.toNat).data
  else [c]

/-- A JSON string literal of `s`. -/
def jsonStr (s : String) : String :=
  "\"" ++ String.mk (s.data.map escapeJsonChar).flatten ++ "\""

/-- A run of `n` spaces. -/
def sp (n : Nat) : String := String.mk (List.replicate n ' ')

mutual
/-- `JSON.stringify(nd, null, 2)` rendered with the opening brace at the
current position and the closing brace indented at `2 * depth`. -/
def nodeJson (depth : Nat) : Node → String
  | .mk name descr color owner contact size children =>
    let pad := sp (2 * (depth + 1))
    let fields :=
      [pad ++ "\"name\": " ++ jsonStr name,
       pad ++ "\"description\": " ++ jsonStr descr]
      ++ (match color with
          | some c => [pad ++ "\"nodeColor\": " ++ jsonStr c]
          | none => [])
      ++ (match owner with
          | some o => [pad ++ "\"owner\": " ++ jsonStr o]
          | none => [])
      ++ (match contact with
          | some c => [pad ++ "\"contact\": " ++ jsonStr c]
          | none => [])
      ++ (match size with
          | some k => [pad ++ "\"size\": " ++ toString k]
          | none => [])
      ++ childrenJson depth children
    "\x7b\n" ++ String.intercalate ",\n" fields ++ "\n" ++ sp (2 * depth) ++ "\x7d"

/-- The rendered `children` field lines, absent when the key is absent. -/
def childrenJson (depth : Nat) : Option (List Node) → List String
  | none => []
  | some [] => [sp (2 * (depth + 1)) ++ "\"children\": []"]
  | some (c :: cs) =>
    [sp (2 * (depth + 1)) ++ "\"children\": [\n"
      ++ String.intercalate ",\n" (childJsonList depth (c :: cs))
      ++ "\n" ++ sp (2 * (depth + 1)) ++ "]"]

/-- The rendered elements of a children array, each at `depth + 2`. -/
def childJsonList (depth : Nat) : List Node → List String
  | [] => []
  | c :: cs => (sp (2 * (depth + 2)) ++ nodeJson (depth + 2) c) :: childJsonList depth cs
end

/-- Resolves a view name to its directory among the data root entries
(the effect of `path.join(dataDir, viewName)` plus the recursive scan). -/
def findViewDir (entries : List FsTree) (v : String) : Option FsTree :=
  entries.find? fun e => e.isDir && e.name == v

/-- `JSON.stringify(generatedViews, null, 2)`: the combined index object,
keys in view iteration order. -/
def viewsJson (pairs : List (String × Node)) : String :=
  match pairs with
  | [] => "\x7b\x7d"
  | _ =>
    "\x7b\n"
      ++ String.intercalate ",\n"
          (pairs.map fun p => "  " ++ jsonStr p.1 ++ ": " ++ nodeJson 1 p.2)
      ++ "\n\x7d"

/-- `generateAll`: compiles every view of the data root and returns the
persisted artifacts as (file name, file content) pairs — one JavaScript
module per view plus the combined `index.js`. -/
def generateAll (time : Nat) (root : Option (List FsTree)) : List (String × String) :=
  let entries := root.getD []
  let views := getViewDirectories root
  let compiled := views.filterMap fun v =>
    (findViewDir entries v).map fun t => (v, buildFromDirectory time t)
  (compiled.map fun p =>
    (p.1 ++ ".js", "export default " ++ nodeJson 0 p.2 ++ ";\n"))
  ++ [("index.js", "export default " ++ viewsJson compiled ++ ";\n")]

/-! ### Order lemmas for the two comparators -/

theorem charToNat_inj {a b : Char} (h : a.toNat = b.toNat) : a = b :=
  Char.ext (UInt32.toNat.inj h)

theorem lexLe_refl : ∀ l, lexLe l l = true
  | [] => rfl
  | c :: cs => by simp [lexLe, lexLe_refl cs]

theorem lexLe_total : ∀ a b, lexLe a b = true ∨ lexLe b a = true
  | [], _ => Or.inl rfl
  | _ :: _, [] => Or.inr rfl
  | x :: xs, y :: ys => by
    rcases Nat.lt_trichotomy x.toNat y.toNat with hlt | heq | hgt
    · left; simp only [lexLe, if_neg (Nat.ne_of_lt hlt)]; exact decide_eq_true hlt
    · have ih := lexLe_total xs ys
      simpa [lexLe, heq] using ih
    · right; simp only [lexLe, if_neg (Nat.ne_of_lt hgt)]; exact decide_eq_true hgt

theorem lexLe_trans : ∀ a b c, lexLe a b = true → lexLe b c = true → lexLe a c = true
  | [], _, _, _, _ => rfl
  | _ :: _, [], _, h, _ => by simp [lexLe] at h
  | _ :: _, _ :: _, [], _, h => by simp [lexLe] at h
  | x :: xs, y :: ys, z :: zs, h₁, h₂ => by
    simp only [lexLe] at h₁ h₂ ⊢
    by_cases hxy : x.toNat = y.toNat
    · by_cases hyz : y.toNat = z.toNat
      · rw [if_pos hxy] at h₁
        rw [if_pos hyz] at h₂
        rw [if_pos (hxy.trans hyz)]
        exact lexLe_trans xs ys zs h₁ h₂
      · rw [if_neg hyz] at h₂
        have h₂' := of_decide_eq_true h₂
        have hxz : ¬ x.toNat = z.toNat := by omega
        rw [if_neg hxz]
        exact decide_eq_true (by omega)
    · rw [if_neg hxy] at h₁
      have h₁' := of_decide_eq_true h₁
      by_cases hyz : y.toNat = z.toNat
      · have hxz : ¬ x.toNat = z.toNat := by omega
        rw [if_neg hxz]
        exact decide_eq_true (by omega)
      · rw [if_neg hyz] at h₂
        have h₂' := of_decide_eq_true h₂
        have hxz : ¬ x.toNat = z.toNat := by omega
        rw [if_neg hxz]
        exact decide_eq_true (by omega)

theorem lexLe_antisymm : ∀ a b, lexLe a b = true → lexLe b a = true → a = b
  | [], [], _, _ => rfl
  | [], _ :: _, _, h => by simp [lexLe] at h
  | _ :: _, [], h, _ => by simp [lexLe] at h
  | x :: xs, y :: ys, h₁, h₂ => by
    simp only [lexLe] at h₁ h₂
    by_cases hxy : x.toNat = y.toNat
    · rw [if_pos hxy] at h₁
      rw [if_pos hxy.symm] at h₂
      rw [charToNat_inj hxy, lexLe_antisymm xs ys h₁ h₂]
    · rw [if_neg hxy] at h₁
      rw [if_neg (fun h => hxy h.symm)] at h₂
      have h₁' := of_decide_eq_true h₁
      have h₂' := of_decide_eq_true h₂
      omega

theorem localeLe_total (a b : String) : localeLe a b = true ∨ localeLe b a = true := by
  unfold localeLe
  by_cases h : lowerStr a = lowerStr b
  · rw [if_pos h, if_pos h.symm]
    exact lexLe_total b.data a.data
  · rw [if_neg h, if_neg (fun hs => h hs.symm)]
    exact lexLe_total (lowerStr a).data (lowerStr b).data

theorem localeLe_trans (a b c : String) (h₁ : localeLe a b = true)
    (h₂ : localeLe b c = true) : localeLe a c = true := by
  unfold localeLe at h₁ h₂ ⊢
  by_cases hab : lowerStr a = lowerStr b
  · rw [if_pos hab] at h₁
    by_cases hbc : lowerStr b = lowerStr c
    · rw [if_pos hbc] at h₂
      rw [if_pos (hab.trans hbc)]
      exact lexLe_trans c.data b.data a.data h₂ h₁
    · rw [if_neg hbc] at h₂
      rw [if_neg (hab ▸ hbc), hab]
      exact h₂
  · rw [if_neg hab] at h₁
    by_cases hbc : lowerStr b = lowerStr c
    · rw [if_neg (fun h => hab (h.trans hbc.symm)), ← hbc]
      exact h₁
    · rw [if_neg hbc] at h₂
      have hac : ¬ lowerStr a = lowerStr c := by
        intro h
        apply hab
        have hd : (lowerStr a).data = (lowerStr b).data :=
          lexLe_antisymm (lowerStr a).data (lowerStr b).data h₁ (h ▸ h₂)
        exact congrArg String.mk hd
      rw [if_neg hac]
      exact lexLe_trans _ _ _ h₁ h₂

/-! ### Unfolding laws for the compiler -/

theorem isEmpty_map {α β : Type _} (f : α → β) (l : List α) :
    (l.map f).isEmpty = l.isEmpty := by
  cases l <;> rfl

theorem buildFromDirectoryList_eq (time : Nat) :
    ∀ es, buildFromDirectoryList time es = es.map fun e => (e, buildFromDirectory time e)
  | [] => rfl
  | e :: es => by
    rw [buildFromDirectoryList, buildFromDirectoryList_eq time es, List.map_cons]

theorem subs_eq (time : Nat) (es : List FsTree) :
    ((buildFromDirectoryList time es).filter fun p => isQualifyingSubdir p.1).insertionSort PairLe
      = (qualifyingSubdirs es).map fun e => (e, buildFromDirectory time e) := by
  rw [buildFromDirectoryList_eq]
  rw [@List.filter_map _ _ (fun p => isQualifyingSubdir p.1)
      (fun e => (e, buildFromDirectory time e)) es]
  rw [qualifyingSubdirs]
  exact (List.map_insertionSort TreeLe PairLe (fun e => (e, buildFromDirectory time e))
    (es.filter isQualifyingSubdir) (fun _ _ _ _ => Iff.rfl)).symm

/-- Unfolding of `buildFromDirectory` at a directory, with the subdirectory
pipeline expressed through `qualifyingSubdirs`. -/
theorem buildFromDirectory_dir (time : Nat) (n : String)
    (src : Option (Except Unit Settings)) (es : List FsTree) :
    buildFromDirectory time (.dir n src es) =
      if (qualifyingSubdirs es).isEmpty then
        Node.mk (strOr (loadSettings time src).name (formatNodeName n))
          (strOr (loadSettings time src).description (formatNodeName n ++ " segment"))
          (truthyStr (loadSettings time src).nodeColor)
          (truthyStr (loadSettings time src).owner)
          (truthyStr (loadSettings time src).contact)
          (some (natOr (loadSettings time src).size DEFAULTS.LEAF_SIZE)) none
      else
        Node.mk (strOr (loadSettings time src).name (formatNodeName n))
          (strOr (loadSettings time src).description (formatNodeName n ++ " segment"))
          (truthyStr (loadSettings time src).nodeColor)
          (truthyStr (loadSettings time src).owner)
          (truthyStr (loadSettings time src).contact) none
          (some (((qualifyingSubdirs es).map (buildFromDirectory time)).insertionSort ChildLe)) := by
  simp only [buildFromDirectory]
  rw [subs_eq, isEmpty_map, List.map_map]
  rfl

mutual
theorem buildFromDirectory_time_indep (t₁ t₂ : Nat) :
    ∀ t, buildFromDirectory t₁ t = buildFromDirectory t₂ t
  | .file _ => rfl
  | .dir n src es => by
    simp only [buildFromDirectory, buildFromDirectoryList_time_indep t₁ t₂ es]
    rfl

theorem buildFromDirectoryList_time_indep (t₁ t₂ : Nat) :
    ∀ l, buildFromDirectoryList t₁ l = buildFromDirectoryList t₂ l
  | [] => rfl
  | e :: es => by
    simp only [buildFromDirectoryList, buildFromDirectory_time_indep t₁ t₂ e,
      buildFromDirectoryList_time_indep t₁ t₂ es]
end

/-! ### Tree-wide invariants of compiled nodes -/

theorem allNodesList_iff (p : Node → Bool) :
    ∀ l, allNodesList p l = true ↔ ∀ c ∈ l, allNodes p c = true
  | [] => by simp [allNodesList]
  | c :: cs => by
    rw [allNodesList, Bool.and_eq_true, allNodesList_iff p cs]
    simp [List.forall_mem_cons]

theorem isDir_of_qualifying {t : FsTree} (h : isQualifyingSubdir t = true) :
    t.isDir = true := by
  cases t with
  | file n => simp [isQualifyingSubdir, FsTree.isDir] at h
  | dir n src es => rfl

theorem mem_of_mem_qualifyingSubdirs {e : FsTree} {es : List FsTree}
    (h : e ∈ qualifyingSubdirs es) : e ∈ es ∧ isQualifyingSubdir e = true := by
  unfold qualifyingSubdirs at h
  rw [List.mem_insertionSort] at h
  exact List.mem_filter.mp h

mutual
theorem allNodes_build_tree (p : Node → Bool) (time : Nat)
    (hp : ∀ n src es, p (buildFromDirectory time (.dir n src es)) = true) :
    ∀ t, t.isDir = true → allNodes p (buildFromDirectory time t) = true
  | .file _, h => by simp [FsTree.isDir] at h
  | .dir n src es, _ => by
    have hroot := hp n src es
    rw [buildFromDirectory_dir] at hroot ⊢
    by_cases hemp : (qualifyingSubdirs es).isEmpty = true
    · rw [if_pos hemp] at hroot ⊢
      rw [allNodes]
      simp [hroot, allNodesOpt]
    · rw [if_neg hemp] at hroot ⊢
      rw [allNodes]
      refine (Bool.and_eq_true _ _).mpr ⟨hroot, ?_⟩
      rw [allNodesOpt]
      refine (allNodesList_iff p _).mpr ?_
      intro c hc
      rw [List.mem_insertionSort] at hc
      rcases List.mem_map.mp hc with ⟨e, he, rfl⟩
      have hmem := mem_of_mem_qualifyingSubdirs he
      exact allNodes_build_list p time hp es e hmem.1 (isDir_of_qualifying hmem.2)

theorem allNodes_build_list (p : Node → Bool) (time : Nat)
    (hp : ∀ n src es, p (buildFromDirectory time (.dir n src es)) = true) :
    ∀ (l : List FsTree) (e : FsTree), e ∈ l → e.isDir = true →
      allNodes p (buildFromDirectory time e) = true
  | [], e, he, _ => absurd he (List.not_mem_nil e)
  | e' :: l', e, he, hd => by
    rcases List.mem_cons.mp he with rfl | hmem
    · exact allNodes_build_tree p time hp e hd
    · exact allNodes_build_list p time hp l' e hmem hd
end

theorem leafBranchOk_root (time : Nat) (n : String)
    (src : Option (Except Unit Settings)) (es : List FsTree) :
    leafBranchOk (buildFromDirectory time (.dir n src es)) = true := by
  rw [buildFromDirectory_dir]
  by_cases hemp : (qualifyingSubdirs es).isEmpty = true
  · rw [if_pos hemp]
    rfl
  · rw [if_neg hemp]
    have hlen : ((qualifyingSubdirs es).map (buildFromDirectory time)).insertionSort ChildLe ≠ [] := by
      intro h
      apply hemp
      have hl := congrArg List.length h
      rw [List.length_insertionSort, List.length_map] at hl
      cases hq : qualifyingSubdirs es with
      | nil => rfl
      | cons a t => rw [hq] at hl; simp at hl
    obtain ⟨a, t, hct⟩ : ∃ a t,
        ((qualifyingSubdirs es).map (buildFromDirectory time)).insertionSort ChildLe = a :: t := by
      cases h : ((qualifyingSubdirs es).map (buildFromDirectory time)).insertionSort ChildLe with
      | nil => exact absurd h hlen
      | cons a t => exact ⟨a, t, rfl⟩
    rw [hct]
    rfl

theorem sortedAdjByName_of_pairwise :
    ∀ cs, List.Pairwise ChildLe cs → sortedAdjByName cs = true
  | [], _ => rfl
  | [_], _ => rfl
  | a :: b :: t, h => by
    rw [sortedAdjByName]
    have h1 := List.pairwise_cons.mp h
    have hab : ChildLe a b := h1.1 b (List.mem_cons_self b t)
    exact (Bool.and_eq_true _ _).mpr ⟨hab, sortedAdjByName_of_pairwise (b :: t) h1.2⟩

theorem childrenSortedOk_root (time : Nat) (n : String)
    (src : Option (Except Unit Settings)) (es : List FsTree) :
    childrenSortedOk (buildFromDirectory time (.dir n src es)) = true := by
  rw [buildFromDirectory_dir]
  by_cases hemp : (qualifyingSubdirs es).isEmpty = true
  · rw [if_pos hemp]
    rfl
  · rw [if_neg hemp]
    haveI : IsTotal Node ChildLe := ⟨fun a b => localeLe_total a.name b.name⟩
    haveI : IsTrans Node ChildLe := ⟨fun a b c h₁ h₂ => localeLe_trans _ _ _ h₁ h₂⟩
    rw [childrenSortedOk]
    exact sortedAdjByName_of_pairwise _ (List.sorted_insertionSort ChildLe _)

theorem natOr_ne_zero (o : Option Nat) (d : Nat) (hd : d ≠ 0) : natOr o d ≠ 0 := by
  unfold natOr
  cases o with
  | none => exact hd
  | some k =>
    by_cases hk : k = 0
    · simpa [hk] using hd
    · simpa [hk] using hk

theorem sizeNonzeroOk_root (time : Nat) (n : String)
    (src : Option (Except Unit Settings)) (es : List FsTree) :
    sizeNonzeroOk (buildFromDirectory time (.dir n src es)) = true := by
  rw [buildFromDirectory_dir]
  by_cases hemp : (qualifyingSubdirs es).isEmpty = true
  · rw [if_pos hemp]
    have hx := natOr_ne_zero (loadSettings time src).size DEFAULTS.LEAF_SIZE (by decide)
    simp [sizeNonzeroOk, Node.size, hx]
  · rw [if_neg hemp]
    rfl

/-- Claim C1: in any tree compiled from a view directory, every node carries
exactly one of `size` and `children` — never both, never neither — and a
present `children` array is non-empty. -/
theorem C1_leaf_branch_exclusivity (time : Nat) (n : String)
    (src : Option (Except Unit Settings)) (es : List FsTree) :
    allNodes leafBranchOk (buildFromDirectory time (.dir n src es)) = true :=
  allNodes_build_tree leafBranchOk time
    (fun n' src' es' => leafBranchOk_root time n' src' es') (.dir n src es) rfl

/-- Claim C3: in any tree compiled from a view directory, every branch node has
its children sorted ascending by resolved display name under the case-aware
`localeCompare` order — `children[i].name <= children[i+1].name` for every
adjacent pair. -/
theorem C3_children_sorted_by_resolved_name (time : Nat) (n : String)
    (src : Option (Except Unit Settings)) (es : List FsTree) :
    allNodes childrenSortedOk (buildFromDirectory time (.dir n src es)) = true :=
  allNodes_build_tree childrenSortedOk time
    (fun n' src' es' => childrenSortedOk_root time n' src' es') (.dir n src es) rfl

/-- Claim C10: a leaf directory whose metadata supplies the falsy size `0`
compiles to the default `size` 1000, and consequently no node of any
compiled tree carries `size` 0. -/
theorem C10_size_zero_defaults (time : Nat) (n : String)
    (src : Option (Except Unit Settings)) (es : List FsTree) :
    ((loadSettings time src).size = some 0 → (qualifyingSubdirs es).isEmpty = true →
      (buildFromDirectory time (.dir n src es)).size = some DEFAULTS.LEAF_SIZE)
    ∧ allNodes sizeNonzeroOk (buildFromDirectory time (.dir n src es)) = true := by
  constructor
  · intro hsz hemp
    rw [buildFromDirectory_dir, if_pos hemp, Node.size, hsz]
    rfl
  · exact allNodes_build_tree sizeNonzeroOk time
      (fun n' src' es' => sizeNonzeroOk_root time n' src' es') (.dir n src es) rfl

/-- Witness for C10 at a concrete leaf with metadata size `0`. -/
theorem C10_size_zero_defaults_witness :
    (buildFromDirectory 0 (.dir "payments" (some (.ok { size := some 0 })) [])).size
      = some DEFAULTS.LEAF_SIZE :=
  (C10_size_zero_defaults 0 "payments" (some (.ok { size := some 0 })) []).1 rfl rfl

/-! ### Field-level laws of the compiled node -/

theorem buildFromDirectory_name (time : Nat) (n : String)
    (src : Option (Except Unit Settings)) (es : List FsTree) :
    (buildFromDirectory time (.dir n src es)).name
      = strOr (loadSettings time src).name (formatNodeName n) := by
  rw [buildFromDirectory_dir]
  split <;> rfl

theorem buildFromDirectory_description (time : Nat) (n : String)
    (src : Option (Except Unit Settings)) (es : List FsTree) :
    (buildFromDirectory time (.dir n src es)).description
      = strOr (loadSettings time src).description (formatNodeName n ++ " segment") := by
  rw [buildFromDirectory_dir]
  split <;> rfl

theorem strOr_of_truthyStr_none {o : Option String} {d : String}
    (h : truthyStr o = none) : strOr o d = d := by
  cases o with
  | none => rfl
  | some s =>
    unfold truthyStr at h
    by_cases hs : s = ""
    · simp [strOr, hs]
    · simp [hs] at h

/-- Claim C2 is false as stated: when the metadata supplies a `name` override and
no `description`, the default description is built from the formatted
directory base name (`Foo segment`), not from the resolved display name
(`Bar segment`); moreover a present-but-empty description also falls back
to the default. -/
theorem C2_counterexample :
    (buildFromDirectory 0 (.dir "foo" (some (.ok { name := some "Bar" })) [])).name = "Bar"
    ∧ (buildFromDirectory 0 (.dir "foo" (some (.ok { name := some "Bar" })) [])).description
        = "Foo segment"
    ∧ (buildFromDirectory 0 (.dir "foo" (some (.ok { name := some "Bar" })) [])).description
        ≠ (buildFromDirectory 0 (.dir "foo" (some (.ok { name := some "Bar" })) [])).name
          ++ " segment"
    ∧ (buildFromDirectory 0 (.dir "baz" (some (.ok { description := some "" })) [])).description
        = "Baz segment" :=
  ⟨rfl, rfl, by decide, rfl⟩

/-- Claim C2 (amended): the compiled `description` equals the metadata
description when that is present and non-empty; otherwise — metadata
description absent or empty, regardless of any `name` override — it is the
formatted directory base name followed by `" segment"`.  The third conjunct
is the full characterizing equation of the description field. -/
theorem C2_description_rule (time : Nat) (n : String)
    (src : Option (Except Unit Settings)) (es : List FsTree) :
    (∀ d : String, (loadSettings time src).description = some d → d ≠ "" →
      (buildFromDirectory time (.dir n src es)).description = d)
    ∧ (truthyStr (loadSettings time src).description = none →
      (buildFromDirectory time (.dir n src es)).description
        = formatNodeName n ++ " segment")
    ∧ (buildFromDirectory time (.dir n src es)).description
        = strOr (loadSettings time src).description (formatNodeName n ++ " segment") := by
  rw [buildFromDirectory_description]
  refine ⟨?_, ?_, rfl⟩
  · intro d hd hne
    rw [hd]
    unfold strOr
    simp [hne]
  · intro h
    exact strOr_of_truthyStr_none h

/-- Witness for C2 (amended) at concrete inputs covering both cases. -/
theorem C2_description_rule_witness :
    (buildFromDirectory 0 (.dir "payments"
        (some (.ok { description := some "x" })) [])).description = "x"
    ∧ (buildFromDirectory 0 (.dir "foo"
        (some (.ok { name := some "Bar" })) [])).description = "Foo segment" :=
  ⟨(C2_description_rule 0 "payments" (some (.ok { description := some "x" })) []).1
      "x" rfl (by decide),
   (C2_description_rule 0 "foo" (some (.ok { name := some "Bar" })) []).2.1 rfl⟩

/-- Claim C4 is false as stated: the scenario root compiles to display name
`ViewA`, not `View A` — `formatNodeName` replaces hyphens and uppercases
word-initial characters but never inserts spaces into a camel-case name. -/
theorem C4_counterexample :
    (buildFromDirectory 0 viewAScenario).name = "ViewA" ∧ "ViewA" ≠ "View A" :=
  ⟨rfl, by decide⟩

/-- Claim C4 (amended): compiling the `ViewA` scenario yields exactly the root
node named `ViewA` with description `ViewA segment` and children ordered
`Alpha` (description `Alpha segment`, size 1000) before `Beta` (description
`b`, size 1000). -/
theorem C4_two_level_scenario (time : Nat) :
    buildFromDirectory time viewAScenario
      = Node.mk "ViewA" "ViewA segment" none none none none
          (some [Node.mk "Alpha" "Alpha segment" none none none (some 1000) none,
                 Node.mk "Beta" "b" none none none (some 1000) none]) := by
  rw [buildFromDirectory_time_indep time 0]
  rfl

/-- Claim C5: evaluation at the failing input.  A leaf directory whose metadata
supplies `contactEmail` compiles to a node with no contact information at
all — the generator reads only the `contact` key, and `Node` carries no
`contactEmail` field — while the same value supplied under `contact` is
copied through. -/
theorem C5_contactEmail_dropped :
    buildFromDirectory 0
        (.dir "Payments" (some (.ok { contactEmail := some "team@example.com" })) [])
      = Node.mk "Payments" "Payments segment" none none none (some 1000) none
    ∧ buildFromDirectory 0
        (.dir "Payments" (some (.ok { contact := some "team@example.com" })) [])
      = Node.mk "Payments" "Payments segment" none none
          (some "team@example.com") (some 1000) none :=
  ⟨rfl, rfl⟩

/-- Claim C7: when the metadata supplies no truthy `name` override, the compiled
display name is the directory base name with hyphens replaced by spaces and
the first letter of every word uppercased (`formatNodeName`); in particular
`time-and-attendance` formats to `Time And Attendance`. -/
theorem C7_name_formatting (time : Nat) (n : String)
    (src : Option (Except Unit Settings)) (es : List FsTree)
    (h : truthyStr (loadSettings time src).name = none) :
    (buildFromDirectory time (.dir n src es)).name = formatNodeName n
    ∧ formatNodeName "time-and-attendance" = "Time And Attendance" := by
  constructor
  · rw [buildFromDirectory_name]
    exact strOr_of_truthyStr_none h
  · rfl

/-- Witness for C7 at the concrete directory name of the spec scenario. -/
theorem C7_name_formatting_witness :
    (buildFromDirectory 0 (.dir "time-and-attendance" none [])).name
      = "Time And Attendance" := by
  have h := C7_name_formatting 0 "time-and-attendance" none [] rfl
  rw [h.1, h.2]

/-! ### View enumeration -/

/-- Claim C9: calling `getViewDirectories` on a missing data root yields the
empty sequence with a warning and no exception; on an existing root it yields
exactly the names of the immediate non-hidden subdirectories, sorted
ascending. -/
theorem C9_getViewDirectories_spec :
    getViewDirectories none = []
    ∧ dataRootWarns none = true
    ∧ ∀ entries : List FsTree,
        List.Pairwise NameLe (getViewDirectories (some entries))
        ∧ ∀ v : String, (v ∈ getViewDirectories (some entries) ↔
            ∃ e ∈ entries, e.isDir = true ∧ startsWithDot e.name = false ∧ e.name = v) := by
  refine ⟨rfl, rfl, fun entries => ⟨?_, ?_⟩⟩
  · haveI : IsTotal String NameLe := ⟨fun a b => lexLe_total a.data b.data⟩
    haveI : IsTrans String NameLe := ⟨fun a b c h₁ h₂ => lexLe_trans _ _ _ h₁ h₂⟩
    exact List.sorted_insertionSort NameLe _
  · intro v
    unfold getViewDirectories
    rw [List.mem_insertionSort, List.mem_map]
    constructor
    · rintro ⟨e, he, rfl⟩
      have hf := List.mem_filter.mp he
      have hb := (Bool.and_eq_true _ _).mp hf.2
      refine ⟨e, hf.1, hb.1, ?_, rfl⟩
      simpa using hb.2
    · rintro ⟨e, he, hd, hdot, rfl⟩
      exact ⟨e, List.mem_filter.mpr ⟨he, by simp [hd, hdot]⟩, rfl⟩

/-- Witness for C9 at a concrete root listing. -/
theorem C9_getViewDirectories_spec_witness :
    "Alpha" ∈ getViewDirectories
      (some [FsTree.dir "Beta" none [], FsTree.dir "Alpha" none [], FsTree.file ".x"]) :=
  ((C9_getViewDirectories_spec.2.2
      [FsTree.dir "Beta" none [], FsTree.dir "Alpha" none [], FsTree.file ".x"]).2 "Alpha").mpr
    ⟨FsTree.dir "Alpha" none [],
      List.mem_cons_of_mem _ (List.mem_cons_self _ _), rfl, rfl, rfl⟩

/-! ### Shape congruence: a throwing settings source behaves as an absent one -/

theorem shapeEq_name {t₁ t₂ : FsTree} (h : ShapeEq t₁ t₂) : t₁.name = t₂.name := by
  cases h <;> rfl

theorem shapeEq_qual {t₁ t₂ : FsTree} (h : ShapeEq t₁ t₂) :
    isQualifyingSubdir t₁ = isQualifyingSubdir t₂ := by
  cases h <;> rfl

theorem pairsKey_children_eq (l₁ l₂ : List (FsTree × Node))
    (h : l₁.map pairKey = l₂.map pairKey) :
    ((l₁.filter fun p => isQualifyingSubdir p.1).insertionSort PairLe).isEmpty
      = ((l₂.filter fun p => isQualifyingSubdir p.1).insertionSort PairLe).isEmpty
    ∧ ((l₁.filter fun p => isQualifyingSubdir p.1).insertionSort PairLe).map Prod.snd
      = ((l₂.filter fun p => isQualifyingSubdir p.1).insertionSort PairLe).map Prod.snd := by
  have key : ∀ l : List (FsTree × Node),
      ((l.filter fun p => isQualifyingSubdir p.1).insertionSort PairLe).map pairKey
        = ((l.map pairKey).filter fun k => k.1.2).insertionSort KeyLe := by
    intro l
    rw [List.map_insertionSort PairLe KeyLe pairKey (l.filter fun p => isQualifyingSubdir p.1)
      (fun _ _ _ _ => Iff.rfl)]
    congr 1
    exact (@List.filter_map _ _ (fun k => k.1.2) pairKey l).symm
  have h1 : ((l₁.filter fun p => isQualifyingSubdir p.1).insertionSort PairLe).map pairKey
      = ((l₂.filter fun p => isQualifyingSubdir p.1).insertionSort PairLe).map pairKey := by
    rw [key l₁, key l₂, h]
  constructor
  · rw [← isEmpty_map pairKey, h1, isEmpty_map]
  · calc ((l₁.filter fun p => isQualifyingSubdir p.1).insertionSort PairLe).map Prod.snd
        = (((l₁.filter fun p => isQualifyingSubdir p.1).insertionSort PairLe).map pairKey).map
            (fun k => k.2) := by rw [List.map_map]; rfl
      _ = (((l₂.filter fun p => isQualifyingSubdir p.1).insertionSort PairLe).map pairKey).map
            (fun k => k.2) := by rw [h1]
      _ = ((l₂.filter fun p => isQualifyingSubdir p.1).insertionSort PairLe).map Prod.snd := by
            rw [List.map_map]; rfl

theorem shapeEq_dir_settings {n₁ n₂ : String} {s₁ s₂ : Option (Except Unit Settings)}
    {e₁ e₂ : List FsTree} (h : ShapeEq (.dir n₁ s₁ e₁) (.dir n₂ s₂ e₂)) :
    loadSettings 0 s₁ = loadSettings 0 s₂ := by
  cases h
  assumption

theorem shapeEq_dir_entries {n₁ n₂ : String} {s₁ s₂ : Option (Except Unit Settings)}
    {e₁ e₂ : List FsTree} (h : ShapeEq (.dir n₁ s₁ e₁) (.dir n₂ s₂ e₂)) :
    ShapeEqs e₁ e₂ := by
  cases h
  assumption

theorem shapeEqs_cons_head {a b : FsTree} {l₁ l₂ : List FsTree}
    (h : ShapeEqs (a :: l₁) (b :: l₂)) : ShapeEq a b := by
  cases h
  assumption

theorem shapeEqs_cons_tail {a b : FsTree} {l₁ l₂ : List FsTree}
    (h : ShapeEqs (a :: l₁) (b :: l₂)) : ShapeEqs l₁ l₂ := by
  cases h
  assumption

mutual
theorem buildFromDirectory_shape_congr (time : Nat) :
    ∀ t₁ t₂, ShapeEq t₁ t₂ → buildFromDirectory time t₁ = buildFromDirectory time t₂
  | .file _, .file _, h => by cases h; rfl
  | .file _, .dir _ _ _, h => by cases h
  | .dir _ _ _, .file _, h => by cases h
  | .dir n₁ s₁ e₁, .dir n₂ s₂ e₂, h => by
    have hn : n₁ = n₂ := shapeEq_name h
    subst hn
    have hs := shapeEq_dir_settings h
    have he := shapeEq_dir_entries h
    have hk := buildFromDirectoryList_shape_congr time e₁ e₂ he
    have hch := pairsKey_children_eq _ _ hk
    simp only [buildFromDirectory]
    rw [hch.1, hch.2, show loadSettings time s₁ = loadSettings time s₂ from hs]

theorem buildFromDirectoryList_shape_congr (time : Nat) :
    ∀ l₁ l₂, ShapeEqs l₁ l₂ →
      (buildFromDirectoryList time l₁).map pairKey
        = (buildFromDirectoryList time l₂).map pairKey
  | [], [], _ => rfl
  | [], _ :: _, h => by cases h
  | _ :: _, [], h => by cases h
  | a :: l₁, b :: l₂, h => by
    have hab := shapeEqs_cons_head h
    have hl := shapeEqs_cons_tail h
    simp only [buildFromDirectoryList, List.map_cons]
    rw [buildFromDirectoryList_shape_congr time l₁ l₂ hl]
    have hpk : pairKey (a, buildFromDirectory time a)
        = pairKey (b, buildFromDirectory time b) := by
      unfold pairKey
      rw [shapeEq_name hab, shapeEq_qual hab, buildFromDirectory_shape_congr time a b hab]
    rw [hpk]
end

mutual
theorem shapeEq_refl : ∀ t, ShapeEq t t
  | .file n => .file n
  | .dir n s es => .dir n s s es es rfl (shapeEqs_refl es)

theorem shapeEqs_refl : ∀ l, ShapeEqs l l
  | [] => .nil
  | e :: es => .cons (shapeEq_refl e) (shapeEqs_refl es)
end

theorem shapeEqs_append : ∀ (l₁ l₂ r₁ r₂ : List FsTree),
    ShapeEqs l₁ l₂ → ShapeEqs r₁ r₂ → ShapeEqs (l₁ ++ r₁) (l₂ ++ r₂)
  | [], [], _, _, _, h₂ => h₂
  | [], _ :: _, _, _, h, _ => by cases h
  | _ :: _, [], _, _, h, _ => by cases h
  | a :: l₁, b :: l₂, r₁, r₂, h₁, h₂ =>
    .cons (shapeEqs_cons_head h₁) (shapeEqs_append l₁ l₂ r₁ r₂ (shapeEqs_cons_tail h₁) h₂)

/-- Claim C8: a directory whose settings source throws on load compiles exactly
as if it had no settings source (full defaults), the warning is recorded,
and a view containing such a directory among arbitrary siblings compiles to
the same tree as the view with that settings source absent — the failure
never aborts the node, its siblings, or the view. -/
theorem C8_bad_settings_nonfatal (time : Nat) (n : String) (es : List FsTree)
    (e : Unit) (p : String) (ps : Option (Except Unit Settings))
    (pre post : List FsTree) :
    buildFromDirectory time (.dir n (some (.error e)) es)
      = buildFromDirectory time (.dir n none es)
    ∧ settingsLoadWarns (some (.error e)) = true
    ∧ buildFromDirectory time (.dir p ps (pre ++ FsTree.dir n (some (.error e)) es :: post))
      = buildFromDirectory time (.dir p ps (pre ++ FsTree.dir n none es :: post)) := by
  have hmid : ShapeEq (FsTree.dir n (some (.error e)) es) (FsTree.dir n none es) :=
    .dir n (some (.error e)) none es es rfl (shapeEqs_refl es)
  refine ⟨buildFromDirectory_shape_congr time _ _ hmid, rfl, ?_⟩
  exact buildFromDirectory_shape_congr time _ _
    (.dir p ps ps _ _ rfl
      (shapeEqs_append pre pre _ _ (shapeEqs_refl pre) (.cons hmid (shapeEqs_refl post))))

/-- Claim C6: the persisted artifacts of `generateAll` depend only on the data
root contents — two runs at different clock values (the only run-to-run
difference under an unchanged filesystem) produce byte-identical files. -/
theorem C6_generateAll_deterministic (t₁ t₂ : Nat) (root : Option (List FsTree)) :
    generateAll t₁ root = generateAll t₂ root := by
  have hb : buildFromDirectory t₁ = buildFromDirectory t₂ :=
    funext (buildFromDirectory_time_indep t₁ t₂)
  unfold generateAll
  rw [hb]

end MasterCompass
